import Mathlib

/-!
Verification of the timed-cue sequencer core of `daily_exercise.py`.

The program's core logic lives in two JavaScript blocks templated by the
Python functions `breathing_component` and `sequence_caller`, plus the Python
function `save_log`.  This file gives a shallow embedding of that logic:

* the breathing phase sequencer (`startFlow`/`runCycle`/`nextStep`/`setPhase`/
  `stopAll`/`speakNow` in the `breathing_component` template) is embedded as a
  state machine on `Breath.BState`, with one-second timer granularity
  (`Breath.second` models one elapsed second of the host event loop: the live
  `setInterval` countdown tick fires first, then the phase-advance
  `setTimeout`, matching registration order);
* the periodic cue caller (`start`/`tick`/`stop` in the `sequence_caller`
  template) is embedded on `Seq.SState`, with `Seq.intervalStep` modelling one
  firing of its `setInterval` timer;
* `save_log` is embedded over an explicit in-memory log list, with the CSV
  write modelled as an injected fallible `persist` function whose failure is
  swallowed, as in the Python `try/except: pass`.

Machine integers do not occur (all counters are small non-negative integers,
embedded as `Nat`); the DOM text sinks are embedded as `String` fields plus an
append-only event trace recording every externally visible side effect.
-/

namespace DailyExercise

/-! ## Phase sequencer (breathing_component JS) -/

namespace Breath

/-- One pattern step `(label, secs, action)` as in the `patterns` dict of
`breathing_component` (e.g. `("Inhale", 4, "expand")`). -/
structure Step where
  label : String
  secs : Nat
  action : String
deriving DecidableEq, Repr

/-- The Box pattern from the `patterns` dict:
`[("Inhale",4,"expand"),("Hold",4,"hold"),("Exhale",4,"shrink"),("Hold",4,"hold")]`. -/
def boxSteps : List Step :=
  [⟨"Inhale", 4, "expand"⟩, ⟨"Hold", 4, "hold"⟩, ⟨"Exhale", 4, "shrink"⟩, ⟨"Hold", 4, "hold"⟩]

/-- Externally visible side effects of the breathing component, in program
order.  `phase` is the display update performed by `setPhase___KEY__`
(label, initial countdown value, visual action); `tick` is one countdown
display write by its interval; `speak` and `cancel` are the narration sink
calls; `chime` is the WebAudio chime; `stopped` is the display reset performed
by `stopAll___KEY__` (label "Stopped", count "—", scale 1). -/
inductive Ev where
  | phase (label : String) (secs : Nat) (action : String)
  | tick (n : Nat)
  | speak (label : String)
  | chime
  | cancel
  | stopped
deriving DecidableEq, Repr

/-- Runtime state of the breathing component.  `phaseBig`, `countText`,
`scale` mirror the DOM nodes `phaseBig___KEY__`, `count___KEY__` and the
circle transform (scale in hundredths: 100, 135, 83).  `cd` is the live
countdown `setInterval` (its captured `remaining` value), `adv` the live
phase-advance `setTimeout` (seconds until it fires); `none` means no such
timer is pending (the JS `timers` array with all live timers cleared on
stop).  `speaking` is the single current utterance of the narration sink. -/
structure BState where
  running : Bool
  phaseBig : String
  countText : String
  scale : Nat
  speaking : Option String
  cycle : Nat
  i : Nat
  cd : Option Nat
  adv : Option Nat
  events : List Ev
deriving DecidableEq, Repr

/-- Initial DOM state: label "Ready", count "—", circle at scale 1. -/
def initB : BState :=
  { running := false, phaseBig := "Ready", countText := "—", scale := 100
    speaking := none, cycle := 0, i := 0, cd := none, adv := none, events := [] }

/-- `scale` computed in `setPhase___KEY__`: 1.35 for "expand", 0.83 for
"shrink", 1.0 otherwise (in hundredths). -/
def scaleOf (action : String) : Nat :=
  if action = "expand" then 135 else if action = "shrink" then 83 else 100

/-- `stopAll___KEY__`: clear the running flag and every pending timer, reset
the display, and (when speech is supported) cancel the current utterance. -/
def stopAllF (sup : Bool) (s : BState) : BState :=
  { s with running := false, cd := none, adv := none
           phaseBig := "Stopped", countText := "—", scale := 100
           speaking := if sup then none else s.speaking
           events := s.events ++ [Ev.stopped] ++ (if sup then [Ev.cancel] else []) }

/-- `setPhase___KEY__ label secs action`: write the label, transform and the
initial countdown value, and start the 1-second countdown interval. -/
def setPhaseF (label : String) (secs : Nat) (action : String) (s : BState) : BState :=
  { s with phaseBig := label, scale := scaleOf action
           countText := toString secs, cd := some secs
           events := s.events ++ [Ev.phase label secs action] }

/-- `speakNow___KEY__ text`: no-op when speech is unsupported; otherwise
cancel-and-replace the current utterance. -/
def speakNowF (sup : Bool) (label : String) (s : BState) : BState :=
  if sup then
    { s with speaking := some label, events := s.events ++ [Ev.cancel, Ev.speak label] }
  else s

/-- Body of `nextStep` when a step exists at the current index: `setPhase`,
speak, chime, then schedule the advance timeout for `secs` seconds. -/
def phaseSetup (sup : Bool) (st : Step) (s : BState) : BState :=
  let s1 := setPhaseF st.label st.secs st.action s
  let s2 := speakNowF sup st.label s1
  let s3 := { s2 with events := s2.events ++ [Ev.chime] }
  { s3 with adv := some st.secs }

/-- The mutually recursive pair `runCycle` (tag `true`) / `nextStep`
(tag `false`) of `startFlow___KEY__`, written as one fuel-indexed structural
recursion so that concrete runs compute.  The fuel only bounds the
synchronous `nextStep → runCycle → nextStep` cycle-rollover chain; with the
fuel used at every call site (`2*maxC+3`) it never runs out, since each
rollover increments `cycle` and the chain stops at `cycle ≥ maxC`. -/
def stepLoop (sup : Bool) (steps : List Step) (maxC : Nat) : Nat → Bool → BState → BState
  | 0, _, s => s
  | fuel+1, true, s =>
    if s.running = false then s
    else if maxC ≤ s.cycle then stopAllF sup s
    else stepLoop sup steps maxC fuel false { s with i := 0 }
  | fuel+1, false, s =>
    if s.running = false then s
    else if h : s.i < steps.length then phaseSetup sup (steps.get ⟨s.i, h⟩) s
    else stepLoop sup steps maxC fuel true { s with cycle := s.cycle + 1 }

/-- `runCycle` of `startFlow___KEY__`: stop naturally once `cycle ≥ maxCycles`,
else run the pattern from index 0. -/
def runCycleF (sup : Bool) (steps : List Step) (maxC : Nat) (fuel : Nat) (s : BState) : BState :=
  stepLoop sup steps maxC fuel true s

/-- `nextStep` of `startFlow___KEY__`: guard on `running`; set up the step at
index `i` if one exists, else roll over to the next cycle. -/
def nextStepF (sup : Bool) (steps : List Step) (maxC : Nat) (fuel : Nat) (s : BState) : BState :=
  stepLoop sup steps maxC fuel false s

/-- Fuel passed at every entry point; always sufficient (see `stepLoop`). -/
def FUELB (maxC : Nat) : Nat := 2 * maxC + 3

/-- `startFlow___KEY__`: no-op when already running, else set `running`,
reset `cycle` to 0 and enter `runCycle`. -/
def startFlowF (sup : Bool) (steps : List Step) (maxC : Nat) (s : BState) : BState :=
  if s.running then s
  else runCycleF sup steps maxC (FUELB maxC) { s with running := true, cycle := 0 }

/-- Firing of the live countdown interval, if any: `remaining -= 1`; at
`remaining ≤ 0` it clears itself without a display write, otherwise it
writes the new value. -/
def cdStep (s : BState) : BState :=
  match s.cd with
  | none => s
  | some r =>
    if r ≤ 1 then { s with cd := none }
    else { s with cd := some (r-1), countText := toString (r-1)
                  events := s.events ++ [Ev.tick (r-1)] }

/-- Firing of the phase-advance timeout, if due this second:
`i += 1; nextStep()`; otherwise it just comes one second closer. -/
def advStep (sup : Bool) (steps : List Step) (maxC : Nat) (s : BState) : BState :=
  match s.adv with
  | none => s
  | some n =>
    if n ≤ 1 then nextStepF sup steps maxC (FUELB maxC) { s with adv := none, i := s.i + 1 }
    else { s with adv := some (n-1) }

/-- One elapsed second of the host event loop.  The live countdown interval
fires first (it was registered in `setPhase` before the advance timeout of
the same step), then the phase-advance timeout. -/
def second (sup : Bool) (steps : List Step) (maxC : Nat) (s : BState) : BState :=
  advStep sup steps maxC (cdStep s)

/-- The breathing component after `startFlow` and `t` elapsed seconds. -/
def runB (sup : Bool) (steps : List Step) (maxC : Nat) (t : Nat) : BState :=
  (second sup steps maxC)^[t] (startFlowF sup steps maxC initB)

/-- Phase-advance events (the `setPhase` display updates) of a trace. -/
def phaseEvs (l : List Ev) : List Ev :=
  l.filter fun e => match e with | .phase _ _ _ => true | _ => false

/-- Display-sink events of a trace: phase updates, countdown writes and the
stop reset (narration and chime events removed). -/
def dispEvs (l : List Ev) : List Ev :=
  l.filter fun e => match e with
    | .phase _ _ _ => true
    | .tick _ => true
    | .stopped => true
    | _ => false

/-- Number of `stopped` (display reset) events in a trace. -/
def stoppedCount : List Ev → Nat
  | [] => 0
  | e :: t => (if e = Ev.stopped then 1 else 0) + stoppedCount t

/-- Total seconds of one pass through a pattern. -/
def sumSecs (steps : List Step) : Nat := (steps.map (·.secs)).sum

/-- Events emitted synchronously when a step is set up (`setPhase`, the
narration call, the chime). -/
def phaseHead (sup : Bool) (st : Step) : List Ev :=
  [Ev.phase st.label st.secs st.action]
    ++ (if sup then [Ev.cancel, Ev.speak st.label] else []) ++ [Ev.chime]

/-- Countdown display writes during a phase of duration `d`:
`[tick (d-1), ..., tick 1]` (the write at 0 never happens: the interval
clears itself when `remaining` reaches 0). -/
def ticksList (d : Nat) : List Ev :=
  (List.range (d-1)).reverse.map fun k => Ev.tick (k+1)

/-- All events of one complete phase of duration ≥ 1. -/
def phaseBlock (sup : Bool) (st : Step) : List Ev :=
  phaseHead sup st ++ ticksList st.secs

/-- All events of one complete cycle through the pattern. -/
def cycleBlock (sup : Bool) (steps : List Step) : List Ev :=
  (steps.map (phaseBlock sup)).flatten

/-- All events of a natural-completion run: `maxC` cycles then the stop
teardown. -/
def fullRunEvs (sup : Bool) (steps : List Step) (maxC : Nat) : List Ev :=
  (List.replicate maxC (cycleBlock sup steps)).flatten
    ++ [Ev.stopped] ++ (if sup then [Ev.cancel] else [])

/-- Relation between two breathing states that agree on everything except
the narration slot and the narration/chime events of their traces.  Used for
the narration-failure decoupling property. -/
def coreRel (s t : BState) : Prop :=
  s.running = t.running ∧ s.phaseBig = t.phaseBig ∧ s.countText = t.countText
    ∧ s.scale = t.scale ∧ s.cycle = t.cycle ∧ s.i = t.i ∧ s.cd = t.cd
    ∧ s.adv = t.adv ∧ dispEvs s.events = dispEvs t.events

end Breath

/-! ## Periodic cue caller (sequence_caller JS) -/

namespace Seq

/-- Externally visible side effects of the cue caller.  `cue` is the cue
display write of `tick` (one announcement, paired with its narration);
`round` is a write to the round indicator; `stopped` is the cue display write
"Stopped" performed by `stop___KEY__`. -/
inductive SEv where
  | cue (text : String)
  | round (text : String)
  | speak (text : String)
  | cancel
  | stopped
deriving DecidableEq, Repr

/-- Runtime state of the cue caller.  `timer` is whether the `setInterval`
registered by `start___KEY__` is live; `idx` and `count` are the mutable
closure variables of `start`; `cueText`/`roundText` mirror the two DOM
nodes. -/
structure SState where
  isRunning : Bool
  timer : Bool
  cueText : String
  roundText : String
  idx : Nat
  count : Nat
  speaking : Option String
  events : List SEv
deriving DecidableEq, Repr

/-- Initial DOM state: cue "Ready", round indicator empty. -/
def initS : SState :=
  { isRunning := false, timer := false, cueText := "Ready", roundText := ""
    idx := 0, count := 0, speaking := none, events := [] }

/-- The string `"Round " + n + " of " + rounds`. -/
def roundStr (n rounds : Nat) : String :=
  "Round " ++ toString n ++ " of " ++ toString rounds

/-- `stop___KEY__`: clear the flag and the interval, write "Stopped" to the
cue display, clear the round indicator, and (when supported) cancel
narration. -/
def stopF (sup : Bool) (s : SState) : SState :=
  { s with isRunning := false, timer := false
           cueText := "Stopped", roundText := ""
           speaking := if sup then none else s.speaking
           events := s.events ++ [SEv.stopped, SEv.round ""] ++ (if sup then [SEv.cancel] else []) }

/-- `tick` of `start___KEY__`: guard on `isRunning`; announce the cue at
`idx % cues.length` (display write plus cancel-and-replace narration when
supported); `idx += 1`; on wrap, `count += 1`, update the round indicator to
`"Round (count+1) of rounds"`, and stop once `count ≥ rounds`. -/
def tickF (sup : Bool) (cues : List String) (rounds : Nat) (s : SState) : SState :=
  if s.isRunning = false then s
  else
    let text := cues.getD (s.idx % cues.length) ""
    let s1 := { s with cueText := text
                       speaking := if sup then some text else s.speaking
                       events := s.events ++ [SEv.cue text]
                                 ++ (if sup then [SEv.cancel, SEv.speak text] else [])
                       idx := s.idx + 1 }
    if s1.idx % cues.length = 0 then
      let s2 := { s1 with count := s1.count + 1 }
      let s3 := { s2 with roundText := roundStr (s2.count + 1) rounds
                          events := s2.events ++ [SEv.round (roundStr (s2.count + 1) rounds)] }
      if rounds ≤ s3.count then stopF sup s3 else s3
    else s1

/-- `start___KEY__`: no-op when already running; else set the flag, reset
`idx`/`count`, write "Round 1 of rounds", run `tick()` once immediately, and
only then register the interval (so `timer` ends up live even when that first
tick already auto-stopped). -/
def startF (sup : Bool) (cues : List String) (rounds : Nat) (s : SState) : SState :=
  if s.isRunning then s
  else
    let s1 := { s with isRunning := true, idx := 0, count := 0
                       roundText := roundStr 1 rounds
                       events := s.events ++ [SEv.round (roundStr 1 rounds)] }
    let s2 := tickF sup cues rounds s1
    { s2 with timer := true }

/-- One firing of the registered interval: runs `tick` while the interval is
live (the `isRunning` guard inside `tick` makes post-stop firings no-ops). -/
def intervalStep (sup : Bool) (cues : List String) (rounds : Nat) (s : SState) : SState :=
  if s.timer then tickF sup cues rounds s else s

/-- The cue caller after `start` and `n` interval firings. -/
def runS (sup : Bool) (cues : List String) (rounds : Nat) (n : Nat) : SState :=
  (intervalStep sup cues rounds)^[n] (startF sup cues rounds initS)

/-- The announced cue texts of a trace, in order. -/
def cueTexts (l : List SEv) : List String :=
  l.filterMap fun e => match e with | .cue t => some t | _ => none

/-- The round-indicator writes of a trace, in order. -/
def roundTexts (l : List SEv) : List String :=
  l.filterMap fun e => match e with | .round t => some t | _ => none

/-- The cue list of the triangle-gaze demo call site. -/
def demoCues : List String := ["Left eye", "Right eye", "Eyebrows"]

/-- The state `start` builds from idle just before running its immediate
first tick: flag set, counters reset, round indicator written. -/
def startS1 (R : Nat) : SState :=
  { isRunning := true, timer := false, cueText := "Ready", roundText := roundStr 1 R
    idx := 0, count := 0, speaking := none, events := [SEv.round (roundStr 1 R)] }

end Seq

/-! ## save_log -/

/-- One row of the in-memory session log, with exactly the columns written by
`save_log`; `rating = none` stands for the empty-string cell written when the
Python `rating` argument is `None`. -/
structure LogRow where
  time : String
  module : String
  duration_sec : Int
  notes : String
  rating : Option Int
deriving DecidableEq, Repr

/-- `save_log(module, duration_sec, notes, rating)`: build the new row (with
the current timestamp `now`), append it to the in-memory log, then try to
persist the whole log to CSV, silently ignoring any write error.  The CSV
write is modelled by the injected fallible `persist`. -/
def save_log (now : String) (persist : List LogRow → Except String Unit)
    (module : String) (duration_sec : Int) (notes : String) (rating : Option Int)
    (log_df : List LogRow) : List LogRow :=
  let new : LogRow :=
    { time := now, module := module, duration_sec := duration_sec
      notes := notes, rating := rating }
  let log_df' := log_df ++ [new]
  match persist log_df' with
  | Except.ok _ => log_df'
  | Except.error _ => log_df'

/-! ## Unfolding and bookkeeping lemmas -/

open Breath Seq

theorem stepLoop_zero (sup : Bool) (steps : List Step) (maxC : Nat) (tag : Bool) (s : BState) :
    stepLoop sup steps maxC 0 tag s = s := rfl

theorem stepLoop_cycle (sup : Bool) (steps : List Step) (maxC f : Nat) (s : BState) :
    stepLoop sup steps maxC (f+1) true s =
      if s.running = false then s
      else if maxC ≤ s.cycle then stopAllF sup s
      else stepLoop sup steps maxC f false { s with i := 0 } := rfl

theorem stepLoop_step (sup : Bool) (steps : List Step) (maxC f : Nat) (s : BState) :
    stepLoop sup steps maxC (f+1) false s =
      if s.running = false then s
      else if h : s.i < steps.length then phaseSetup sup (steps.get ⟨s.i, h⟩) s
      else stepLoop sup steps maxC f true { s with cycle := s.cycle + 1 } := rfl

theorem FUELB_succ (maxC : Nat) : FUELB maxC = (2 * maxC + 2) + 1 := rfl

theorem phaseSetup_eq (sup : Bool) (st : Step) (s : BState) :
    phaseSetup sup st s =
      { s with phaseBig := st.label, scale := scaleOf st.action
               countText := toString st.secs, cd := some st.secs, adv := some st.secs
               speaking := if sup then some st.label else s.speaking
               events := s.events ++ phaseHead sup st } := by
  cases sup <;> simp [phaseSetup, setPhaseF, speakNowF, phaseHead]

theorem second_stable (sup : Bool) (steps : List Step) (maxC : Nat) (s : BState)
    (h1 : s.cd = none) (h2 : s.adv = none) : second sup steps maxC s = s := by
  rw [second, cdStep, h1, advStep, h2]

theorem iterate_second_stable (sup : Bool) (steps : List Step) (maxC : Nat) (s : BState)
    (h1 : s.cd = none) (h2 : s.adv = none) (k : Nat) :
    (second sup steps maxC)^[k] s = s :=
  Function.iterate_fixed (second_stable sup steps maxC s h1 h2) k

theorem stoppedCount_append (l1 l2 : List Ev) :
    stoppedCount (l1 ++ l2) = stoppedCount l1 + stoppedCount l2 := by
  induction l1 with
  | nil => simp [stoppedCount]
  | cons e t ih => simp [stoppedCount, ih, Nat.add_assoc]

theorem stoppedCount_phaseHead (sup : Bool) (st : Step) :
    stoppedCount (phaseHead sup st) = 0 := by
  cases sup <;> simp [phaseHead, stoppedCount]

/-- The synchronous `runCycle`/`nextStep` chain never emits a display reset
while it leaves the component running, and it never resurrects a stopped
run. -/
theorem stepLoop_stop_free (sup : Bool) (steps : List Step) (maxC : Nat) :
    ∀ (fuel : Nat) (tag : Bool) (s : BState),
      (stepLoop sup steps maxC fuel tag s).running = true →
      s.running = true ∧
        stoppedCount (stepLoop sup steps maxC fuel tag s).events = stoppedCount s.events := by
  intro fuel
  induction fuel with
  | zero => intro tag s h; exact ⟨h, rfl⟩
  | succ f ih =>
    intro tag s h
    cases tag
    · rw [stepLoop_step] at h ⊢
      by_cases hr : s.running = false
      · rw [if_pos hr] at h ⊢; exact ⟨h, rfl⟩
      · rw [if_neg hr] at h ⊢
        have hru : s.running = true := by revert hr; cases s.running <;> simp
        by_cases hi : s.i < steps.length
        · rw [dif_pos hi] at h ⊢
          refine ⟨hru, ?_⟩
          rw [phaseSetup_eq]
          simp [stoppedCount_append, stoppedCount_phaseHead]
        · rw [dif_neg hi] at h ⊢
          exact ⟨hru, (ih true _ h).2⟩
    · rw [stepLoop_cycle] at h ⊢
      by_cases hr : s.running = false
      · rw [if_pos hr] at h ⊢; exact ⟨h, rfl⟩
      · rw [if_neg hr] at h ⊢
        have hru : s.running = true := by revert hr; cases s.running <;> simp
        by_cases hc : maxC ≤ s.cycle
        · rw [if_pos hc] at h; simp [stopAllF] at h
        · rw [if_neg hc] at h ⊢
          exact ⟨hru, (ih false _ h).2⟩

theorem cdStep_none {s : BState} (h : s.cd = none) : cdStep s = s := by
  rw [cdStep, h]

theorem cdStep_clear {s : BState} {r : Nat} (h : s.cd = some r) (hr : r ≤ 1) :
    cdStep s = { s with cd := none } := by
  rw [cdStep, h]; exact if_pos hr

theorem cdStep_tick {s : BState} {r : Nat} (h : s.cd = some r) (hr : ¬ r ≤ 1) :
    cdStep s = { s with cd := some (r-1), countText := toString (r-1)
                        events := s.events ++ [Ev.tick (r-1)] } := by
  rw [cdStep, h]; exact if_neg hr

theorem advStep_none (sup : Bool) (steps : List Step) (maxC : Nat) {s : BState}
    (h : s.adv = none) : advStep sup steps maxC s = s := by
  rw [advStep, h]

theorem advStep_fire (sup : Bool) (steps : List Step) (maxC : Nat) {s : BState} {n : Nat}
    (h : s.adv = some n) (hn : n ≤ 1) :
    advStep sup steps maxC s
      = nextStepF sup steps maxC (FUELB maxC) { s with adv := none, i := s.i + 1 } := by
  rw [advStep, h]; exact if_pos hn

theorem advStep_wait (sup : Bool) (steps : List Step) (maxC : Nat) {s : BState} {n : Nat}
    (h : s.adv = some n) (hn : ¬ n ≤ 1) :
    advStep sup steps maxC s = { s with adv := some (n-1) } := by
  rw [advStep, h]; exact if_neg hn

/-- The countdown firing touches neither the running flag, the advance
timer, the cycle/step position, nor the reset count of the trace. -/
theorem cdStep_facts (s : BState) :
    (cdStep s).running = s.running ∧ (cdStep s).adv = s.adv
      ∧ (cdStep s).i = s.i ∧ (cdStep s).cycle = s.cycle
      ∧ stoppedCount (cdStep s).events = stoppedCount s.events := by
  rcases hcd : s.cd with _ | r
  · rw [cdStep_none hcd]; exact ⟨rfl, rfl, rfl, rfl, rfl⟩
  · by_cases hr1 : r ≤ 1
    · rw [cdStep_clear hcd hr1]; exact ⟨rfl, rfl, rfl, rfl, rfl⟩
    · rw [cdStep_tick hcd hr1]
      exact ⟨rfl, rfl, rfl, rfl, by simp [stoppedCount_append, stoppedCount]⟩

/-- The advance firing never emits a display reset while the component stays
running, and never resurrects a stopped run. -/
theorem advStep_stop_free (sup : Bool) (steps : List Step) (maxC : Nat) (s : BState)
    (h : (advStep sup steps maxC s).running = true) :
    s.running = true ∧
      stoppedCount (advStep sup steps maxC s).events = stoppedCount s.events := by
  rcases hadv : s.adv with _ | n
  · rw [advStep_none sup steps maxC hadv] at h ⊢; exact ⟨h, rfl⟩
  · by_cases hn1 : n ≤ 1
    · rw [advStep_fire sup steps maxC hadv hn1] at h ⊢
      have := stepLoop_stop_free sup steps maxC (FUELB maxC) false _ h
      exact ⟨this.1, this.2⟩
    · rw [advStep_wait sup steps maxC hadv hn1] at h ⊢; exact ⟨h, rfl⟩

/-- One elapsed second never emits a display reset while the component stays
running, and never resurrects a stopped run. -/
theorem second_stop_free (sup : Bool) (steps : List Step) (maxC : Nat) (s : BState)
    (h : (second sup steps maxC s).running = true) :
    s.running = true ∧
      stoppedCount (second sup steps maxC s).events = stoppedCount s.events := by
  rw [second] at h ⊢
  obtain ⟨h1, h2⟩ := advStep_stop_free sup steps maxC (cdStep s) h
  obtain ⟨c1, _, _, _, c5⟩ := cdStep_facts s
  exact ⟨c1 ▸ h1, by rw [h2, c5]⟩

/-- On every path reachable from a fresh start, a running sequencer has not
yet emitted a display reset. -/
theorem runB_stop_free (sup : Bool) (steps : List Step) (maxC : Nat) :
    ∀ t, (runB sup steps maxC t).running = true →
      stoppedCount (runB sup steps maxC t).events = 0 := by
  intro t
  induction t with
  | zero =>
    intro h
    simp only [runB, Function.iterate_zero, id_eq] at h ⊢
    rw [startFlowF, if_neg (by simp [initB])] at h ⊢
    rw [runCycleF] at h ⊢
    have hfree := stepLoop_stop_free sup steps maxC (FUELB maxC) true _ h
    rw [hfree.2]; rfl
  | succ t ih =>
    intro h
    have hs : runB sup steps maxC (t+1) = second sup steps maxC (runB sup steps maxC t) := by
      simp only [runB, Function.iterate_succ_apply']
    rw [hs] at h ⊢
    obtain ⟨h1, h2⟩ := second_stop_free sup steps maxC _ h
    rw [h2, ih h1]

/-- Claim C2: stopping the phase sequencer at any point while it is still
running cancels every pending timer — afterwards no scheduled callback has
any effect at all, in particular no further phase-advance event occurs — and
the display is reset exactly once over the whole run. -/
theorem stop_cancels_everything (sup : Bool) (steps : List Step) (maxC t : Nat)
    (h : (runB sup steps maxC t).running = true) :
    (∀ k, (second sup steps maxC)^[k] (stopAllF sup (runB sup steps maxC t))
        = stopAllF sup (runB sup steps maxC t))
    ∧ phaseEvs (stopAllF sup (runB sup steps maxC t)).events
        = phaseEvs (runB sup steps maxC t).events
    ∧ stoppedCount (stopAllF sup (runB sup steps maxC t)).events = 1 := by
  refine ⟨?_, ?_, ?_⟩
  · intro k; exact iterate_second_stable sup steps maxC _ rfl rfl k
  · cases sup <;> simp [stopAllF, phaseEvs]
  · have hev : (stopAllF sup (runB sup steps maxC t)).events
        = (runB sup steps maxC t).events
            ++ ([Ev.stopped] ++ (if sup then [Ev.cancel] else [])) := by
      simp [stopAllF]
    rw [hev, stoppedCount_append, runB_stop_free sup steps maxC t h]
    cases sup <;> rfl

/-- Witness: stopping the Box-pattern run 5 seconds in. -/
theorem stop_cancels_everything_witness :
    (∀ k, (second true boxSteps 2)^[k] (stopAllF true (runB true boxSteps 2 5))
        = stopAllF true (runB true boxSteps 2 5))
    ∧ phaseEvs (stopAllF true (runB true boxSteps 2 5)).events
        = phaseEvs (runB true boxSteps 2 5).events
    ∧ stoppedCount (stopAllF true (runB true boxSteps 2 5)).events = 1 :=
  stop_cancels_everything true boxSteps 2 5 (by decide)

/-- A start on a valid pattern leaves the sequencer running (the first phase
is set up synchronously). -/
theorem startFlowF_running (sup : Bool) (steps : List Step) (maxC : Nat)
    (hs : steps ≠ []) (hC : 1 ≤ maxC) :
    (startFlowF sup steps maxC initB).running = true := by
  have hlen : 0 < steps.length := List.length_pos.mpr hs
  have hC' : ¬ (maxC ≤ 0) := by omega
  rw [startFlowF, if_neg (by simp [initB]), runCycleF, FUELB_succ, stepLoop_cycle]
  rw [if_neg (by simp), if_neg (by simpa using hC')]
  rw [show (2 * maxC + 2) = (2 * maxC + 1) + 1 from rfl, stepLoop_step]
  rw [if_neg (by simp), dif_pos (by simpa using hlen), phaseSetup_eq]

/-- A start of the cue caller with at least two cues leaves it running (the
immediate first tick cannot complete a round). -/
theorem startF_running (sup : Bool) (cues : List String) (rounds : Nat)
    (h2 : 2 ≤ cues.length) :
    (startF sup cues rounds initS).isRunning = true := by
  have hm : 1 % cues.length = 1 := Nat.mod_eq_of_lt (by omega)
  simp [startF, tickF, initS, hm]

/-- Claim C7: `start` is idempotent while running, for both the phase
sequencer and the periodic cue caller: a second `start` without an
intervening stop is a no-op, so the observable event sequence of two
successive starts equals that of one. -/
theorem start_reentrant_noop (sup : Bool) (steps : List Step) (maxC : Nat)
    (cues : List String) (rounds : Nat) :
    (∀ s : BState, s.running = true → startFlowF sup steps maxC s = s)
    ∧ (∀ s : SState, s.isRunning = true → startF sup cues rounds s = s)
    ∧ (steps ≠ [] → 1 ≤ maxC →
        startFlowF sup steps maxC (startFlowF sup steps maxC initB)
          = startFlowF sup steps maxC initB)
    ∧ (2 ≤ cues.length →
        startF sup cues rounds (startF sup cues rounds initS)
          = startF sup cues rounds initS) := by
  have g1 : ∀ s : BState, s.running = true → startFlowF sup steps maxC s = s := by
    intro s hs; rw [startFlowF, if_pos hs]
  have g2 : ∀ s : SState, s.isRunning = true → startF sup cues rounds s = s := by
    intro s hs; rw [startF, if_pos hs]
  refine ⟨g1, g2, ?_, ?_⟩
  · intro hs hC; exact g1 _ (startFlowF_running sup steps maxC hs hC)
  · intro h2; exact g2 _ (startF_running sup cues rounds h2)

/-- Witness: re-entrant starts on the Box pattern and the demo cue list. -/
theorem start_reentrant_noop_witness :
    (startFlowF true boxSteps 2 (startFlowF true boxSteps 2 initB)
       = startFlowF true boxSteps 2 initB)
    ∧ (startF true demoCues 2 (startF true demoCues 2 initS)
       = startF true demoCues 2 initS) :=
  ⟨(start_reentrant_noop true boxSteps 2 demoCues 2).2.2.1 (by decide) (by decide),
   (start_reentrant_noop true boxSteps 2 demoCues 2).2.2.2 (by decide)⟩

/-- Claim C6 counterexample: calling stop while idle is not free of effects:
it rewrites the display from "Ready" to "Stopped" and issues a narration
cancel, for both components. -/
theorem stop_idle_mutates_display :
    (stopAllF true initB).phaseBig = "Stopped" ∧ initB.phaseBig = "Ready"
    ∧ (stopAllF true initB).events = [Ev.stopped, Ev.cancel]
    ∧ (stopF true initS).cueText = "Stopped" ∧ initS.cueText = "Ready"
    ∧ roundTexts (stopF true initS).events = [""] := by decide

/-- Claim C6 as amended: stop while not running raises no error and leaves
the run control state unchanged (still not running, no live timers, cycle /
index counters untouched), but it does reset the display to the stopped
state and does cancel narration. -/
theorem stop_idle_contract (sup : Bool) (s : BState) (s' : SState)
    (h : s.running = false) (h' : s'.isRunning = false) :
    ((stopAllF sup s).running = false ∧ (stopAllF sup s).cycle = s.cycle
      ∧ (stopAllF sup s).i = s.i ∧ (stopAllF sup s).cd = none ∧ (stopAllF sup s).adv = none
      ∧ (stopAllF sup s).phaseBig = "Stopped" ∧ (stopAllF sup s).countText = "—"
      ∧ (stopAllF sup s).events
          = s.events ++ [Ev.stopped] ++ (if sup then [Ev.cancel] else []))
    ∧ ((stopF sup s').isRunning = false ∧ (stopF sup s').timer = false
      ∧ (stopF sup s').idx = s'.idx ∧ (stopF sup s').count = s'.count
      ∧ (stopF sup s').cueText = "Stopped" ∧ (stopF sup s').roundText = ""
      ∧ (stopF sup s').events
          = s'.events ++ [SEv.stopped, SEv.round ""] ++ (if sup then [SEv.cancel] else [])) :=
  ⟨⟨rfl, rfl, rfl, rfl, rfl, rfl, rfl, rfl⟩, ⟨rfl, rfl, rfl, rfl, rfl, rfl, rfl⟩⟩

/-- Witness: the idle-stop contract at the two initial states. -/
theorem stop_idle_contract_witness :
    ((stopAllF true initB).running = false ∧ (stopAllF true initB).cycle = initB.cycle
      ∧ (stopAllF true initB).i = initB.i ∧ (stopAllF true initB).cd = none
      ∧ (stopAllF true initB).adv = none
      ∧ (stopAllF true initB).phaseBig = "Stopped" ∧ (stopAllF true initB).countText = "—"
      ∧ (stopAllF true initB).events
          = initB.events ++ [Ev.stopped] ++ (if true then [Ev.cancel] else []))
    ∧ ((stopF true initS).isRunning = false ∧ (stopF true initS).timer = false
      ∧ (stopF true initS).idx = initS.idx ∧ (stopF true initS).count = initS.count
      ∧ (stopF true initS).cueText = "Stopped" ∧ (stopF true initS).roundText = ""
      ∧ (stopF true initS).events
          = initS.events ++ [SEv.stopped, SEv.round ""] ++ (if true then [SEv.cancel] else [])) :=
  stop_idle_contract true initB initS rfl rfl

/-- Claim C5 counterexample: in the Box run the countdown display never
shows 0 — the interval clears itself when `remaining` reaches 0 — though it
does reach 1, so "decrements down to 0" is false. -/
theorem box_countdown_never_shows_zero :
    Ev.tick 0 ∉ (runB true boxSteps 2 32).events
    ∧ Ev.tick 1 ∈ (runB true boxSteps 2 32).events := by decide

/-- Claim C5 as amended: the Box pattern run for 2 cycles produces exactly 8
phase-advance events in the order Inhale, Hold, Exhale, Hold, twice, each
showing an initial countdown of 4 which then decrements once per second down
to 1 (0 is never displayed), ending with the natural-completion teardown. -/
theorem box_run_trace :
    (runB true boxSteps 2 32).events = fullRunEvs true boxSteps 2
    ∧ phaseEvs (runB true boxSteps 2 32).events
        = [Ev.phase "Inhale" 4 "expand", Ev.phase "Hold" 4 "hold",
           Ev.phase "Exhale" 4 "shrink", Ev.phase "Hold" 4 "hold",
           Ev.phase "Inhale" 4 "expand", Ev.phase "Hold" 4 "hold",
           Ev.phase "Exhale" 4 "shrink", Ev.phase "Hold" 4 "hold"]
    ∧ ticksList 4 = [Ev.tick 3, Ev.tick 2, Ev.tick 1]
    ∧ (runB true boxSteps 2 32).running = false := by decide

/-- Claim C8 counterexample: in the demo cue-caller run the round indicator
is written with "Round 3 of 2" right after the 6th announcement (and then
cleared), not with "Round 2 of 2" as claimed. -/
theorem caller_round_overshoot :
    roundTexts (runS true demoCues 2 5).events
      = ["Round 1 of 2", "Round 2 of 2", "Round 3 of 2", ""]
    ∧ "Round 3 of 2" ∉ ["Round 1 of 2", "Round 2 of 2"] := by decide

/-- Claim C8 as amended: the demo run announces exactly the 6 cues in order;
the round indicator reads "Round 1 of 2" from the start, "Round 2 of 2"
after the 3rd announcement, and after the 6th it is briefly written as
"Round 3 of 2" and then cleared by the automatic stop; the caller is stopped
after the 6th announcement and later interval firings change nothing. -/
theorem caller_demo_trace :
    cueTexts (runS true demoCues 2 5).events
      = ["Left eye", "Right eye", "Eyebrows", "Left eye", "Right eye", "Eyebrows"]
    ∧ roundTexts (runS true demoCues 2 5).events
      = ["Round 1 of 2", "Round 2 of 2", "Round 3 of 2", ""]
    ∧ (runS true demoCues 2 5).isRunning = false
    ∧ ∀ k, (intervalStep true demoCues 2)^[k] (runS true demoCues 2 5)
        = runS true demoCues 2 5 := by
  refine ⟨by decide, by decide, by decide, ?_⟩
  intro k
  exact Function.iterate_fixed (by decide) k

/-- Claim C4 counterexample: `start` performs no input validation.  Starting
the breathing sequencer on an empty pattern raises nothing and mutates state
(display becomes "Stopped", stop events are emitted), and starting the cue
caller with round target 0 begins playback (announces the first cue). -/
theorem start_malformed_no_error :
    (startFlowF true ([] : List Step) 1 initB).events = [Ev.stopped, Ev.cancel]
    ∧ (startFlowF true ([] : List Step) 1 initB).phaseBig = "Stopped"
    ∧ initB.events = [] ∧ initB.phaseBig = "Ready"
    ∧ cueTexts (startF true ["Left eye"] 0 initS).events = ["Left eye"] := by decide

/-- Claim C4 as amended: `start` does not validate its input — there is no
validation-error path at all.  On an empty pattern the breathing run starts
and immediately terminates through the stop path (no phase-advance event,
display left at "Stopped"); with a non-positive round target the cue caller
starts and announces the first cue before auto-stopping. -/
theorem start_malformed_behavior (sup : Bool) :
    (startFlowF sup ([] : List Step) 1 initB).running = false
    ∧ (startFlowF sup ([] : List Step) 1 initB).phaseBig = "Stopped"
    ∧ phaseEvs (startFlowF sup ([] : List Step) 1 initB).events = []
    ∧ (startF sup ["Left eye"] 0 initS).isRunning = false
    ∧ cueTexts (startF sup ["Left eye"] 0 initS).events = ["Left eye"] := by
  cases sup <;> decide

theorem dispEvs_append (l1 l2 : List Ev) :
    dispEvs (l1 ++ l2) = dispEvs l1 ++ dispEvs l2 := by
  simp [dispEvs]

theorem dispEvs_phaseHead (sup : Bool) (st : Step) :
    dispEvs (phaseHead sup st) = [Ev.phase st.label st.secs st.action] := by
  cases sup <;> simp [phaseHead, dispEvs]

theorem dispEvs_stoppedOne : dispEvs [Ev.stopped] = [Ev.stopped] := rfl

theorem dispEvs_ifCancel (b : Bool) :
    dispEvs (if b then [Ev.cancel] else []) = [] := by
  cases b <;> rfl

theorem coreRel_refl (s : BState) : coreRel s s :=
  ⟨rfl, rfl, rfl, rfl, rfl, rfl, rfl, rfl, rfl⟩

/-- The synchronous advance chain preserves the display-equivalence
relation between a run with narration and one without. -/
theorem stepLoop_coreRel (s1 s2 : Bool) (steps : List Step) (maxC : Nat) :
    ∀ (fuel : Nat) (tag : Bool) (s t : BState), coreRel s t →
      coreRel (stepLoop s1 steps maxC fuel tag s) (stepLoop s2 steps maxC fuel tag t) := by
  intro fuel
  induction fuel with
  | zero => intro tag s t h; exact h
  | succ f ih =>
    intro tag s t h
    obtain ⟨h1, h2, h3, h4, h5, h6, h7, h8, h9⟩ := h
    cases tag
    · rw [stepLoop_step, stepLoop_step]
      by_cases hr : s.running = false
      · rw [if_pos hr, if_pos (h1.symm.trans hr)]
        exact ⟨h1, h2, h3, h4, h5, h6, h7, h8, h9⟩
      · rw [if_neg hr, if_neg (fun hc => hr (h1.trans hc))]
        by_cases hi : s.i < steps.length
        · have hi' : t.i < steps.length := h6 ▸ hi
          rw [dif_pos hi, dif_pos hi']
          have hst : steps.get ⟨s.i, hi⟩ = steps.get ⟨t.i, hi'⟩ := by
            congr 1
            exact Fin.ext h6
          rw [phaseSetup_eq, phaseSetup_eq, hst]
          refine ⟨h1, rfl, rfl, rfl, h5, h6, rfl, rfl, ?_⟩
          rw [dispEvs_append, dispEvs_append, h9, dispEvs_phaseHead, dispEvs_phaseHead]
        · have hi' : ¬ t.i < steps.length := h6 ▸ hi
          rw [dif_neg hi, dif_neg hi']
          exact ih true _ _ ⟨h1, h2, h3, h4, by rw [h5], h6, h7, h8, h9⟩
    · rw [stepLoop_cycle, stepLoop_cycle]
      by_cases hr : s.running = false
      · rw [if_pos hr, if_pos (h1.symm.trans hr)]
        exact ⟨h1, h2, h3, h4, h5, h6, h7, h8, h9⟩
      · rw [if_neg hr, if_neg (fun hc => hr (h1.trans hc))]
        by_cases hc : maxC ≤ s.cycle
        · have hc' : maxC ≤ t.cycle := h5 ▸ hc
          rw [if_pos hc, if_pos hc']
          refine ⟨rfl, rfl, rfl, rfl, h5, h6, rfl, rfl, ?_⟩
          have e1 : (stopAllF s1 s).events
              = s.events ++ ([Ev.stopped] ++ (if s1 then [Ev.cancel] else [])) := by
            simp [stopAllF]
          have e2 : (stopAllF s2 t).events
              = t.events ++ ([Ev.stopped] ++ (if s2 then [Ev.cancel] else [])) := by
            simp [stopAllF]
          rw [e1, e2]
          simp only [dispEvs_append, h9, dispEvs_ifCancel, dispEvs_stoppedOne,
            List.append_nil]
        · have hc' : ¬ maxC ≤ t.cycle := h5 ▸ hc
          rw [if_neg hc, if_neg hc']
          exact ih false _ _ ⟨h1, h2, h3, h4, h5, rfl, h7, h8, h9⟩

/-- The countdown firing preserves display equivalence. -/
theorem cdStep_coreRel (s t : BState) (h : coreRel s t) : coreRel (cdStep s) (cdStep t) := by
  obtain ⟨h1, h2, h3, h4, h5, h6, h7, h8, h9⟩ := h
  rcases hcd : s.cd with _ | r
  · have hcd' : t.cd = none := h7 ▸ hcd
    rw [cdStep_none hcd, cdStep_none hcd']
    exact ⟨h1, h2, h3, h4, h5, h6, h7, h8, h9⟩
  · have hcd' : t.cd = some r := h7 ▸ hcd
    by_cases hr1 : r ≤ 1
    · rw [cdStep_clear hcd hr1, cdStep_clear hcd' hr1]
      exact ⟨h1, h2, h3, h4, h5, h6, rfl, h8, h9⟩
    · rw [cdStep_tick hcd hr1, cdStep_tick hcd' hr1]
      refine ⟨h1, h2, rfl, h4, h5, h6, rfl, h8, ?_⟩
      rw [dispEvs_append, dispEvs_append, h9]

/-- The advance firing preserves display equivalence. -/
theorem advStep_coreRel (s1 s2 : Bool) (steps : List Step) (maxC : Nat) (s t : BState)
    (h : coreRel s t) :
    coreRel (advStep s1 steps maxC s) (advStep s2 steps maxC t) := by
  obtain ⟨h1, h2, h3, h4, h5, h6, h7, h8, h9⟩ := h
  rcases hadv : s.adv with _ | n
  · have hadv' : t.adv = none := h8 ▸ hadv
    rw [advStep_none s1 steps maxC hadv, advStep_none s2 steps maxC hadv']
    exact ⟨h1, h2, h3, h4, h5, h6, h7, h8, h9⟩
  · have hadv' : t.adv = some n := h8 ▸ hadv
    by_cases hn1 : n ≤ 1
    · rw [advStep_fire s1 steps maxC hadv hn1, advStep_fire s2 steps maxC hadv' hn1]
      exact stepLoop_coreRel s1 s2 steps maxC (FUELB maxC) false _ _
        ⟨h1, h2, h3, h4, h5, by rw [h6], h7, rfl, h9⟩
    · rw [advStep_wait s1 steps maxC hadv hn1, advStep_wait s2 steps maxC hadv' hn1]
      exact ⟨h1, h2, h3, h4, h5, h6, h7, rfl, h9⟩

/-- One elapsed second preserves display equivalence. -/
theorem second_coreRel (s1 s2 : Bool) (steps : List Step) (maxC : Nat) (s t : BState)
    (h : coreRel s t) :
    coreRel (second s1 steps maxC s) (second s2 steps maxC t) := by
  rw [second, second]
  exact advStep_coreRel s1 s2 steps maxC _ _ (cdStep_coreRel s t h)

/-- Claim C9: narration availability does not influence playback: the
display-sink event sequence of a run whose narration sink works is identical
to that of the same run with narration unavailable, at every instant. -/
theorem narration_decoupling (s1 s2 : Bool) (steps : List Step) (maxC t : Nat) :
    dispEvs (runB s1 steps maxC t).events = dispEvs (runB s2 steps maxC t).events := by
  have main : coreRel (runB s1 steps maxC t) (runB s2 steps maxC t) := by
    induction t with
    | zero =>
      simp only [runB, Function.iterate_zero, id_eq]
      rw [startFlowF, startFlowF, if_neg (by simp [initB]), if_neg (by simp [initB])]
      exact stepLoop_coreRel s1 s2 steps maxC (FUELB maxC) true _ _ (coreRel_refl _)
    | succ t ih =>
      have e1 : runB s1 steps maxC (t+1) = second s1 steps maxC (runB s1 steps maxC t) := by
        simp only [runB, Function.iterate_succ_apply']
      have e2 : runB s2 steps maxC (t+1) = second s2 steps maxC (runB s2 steps maxC t) := by
        simp only [runB, Function.iterate_succ_apply']
      rw [e1, e2]
      exact second_coreRel s1 s2 steps maxC _ _ ih
  exact main.2.2.2.2.2.2.2.2

theorem cueTexts_append (l1 l2 : List SEv) :
    cueTexts (l1 ++ l2) = cueTexts l1 ++ cueTexts l2 := by
  simp [cueTexts]

theorem cueTexts_speakTail (b : Bool) (t : String) :
    cueTexts (if b then [SEv.cancel, SEv.speak t] else []) = [] := by
  cases b <;> rfl

theorem cueTexts_cancelTail (b : Bool) :
    cueTexts (if b then [SEv.cancel] else []) = [] := by
  cases b <;> rfl

theorem cueTexts_cueOne (t : String) : cueTexts [SEv.cue t] = [t] := rfl

theorem cueTexts_roundOne (t : String) : cueTexts [SEv.round t] = [] := rfl

theorem cueTexts_stopPair : cueTexts [SEv.stopped, SEv.round ""] = [] := rfl

theorem tickF_nowrap (sup : Bool) (cues : List String) (R : Nat) (s : SState)
    (hr : s.isRunning = true) (hw : ¬ (s.idx + 1) % cues.length = 0) :
    tickF sup cues R s =
      { s with cueText := cues.getD (s.idx % cues.length) ""
               speaking := if sup then some (cues.getD (s.idx % cues.length) "") else s.speaking
               events := s.events ++ [SEv.cue (cues.getD (s.idx % cues.length) "")]
                 ++ (if sup then [SEv.cancel, SEv.speak (cues.getD (s.idx % cues.length) "")]
                     else [])
               idx := s.idx + 1 } := by
  rw [tickF, if_neg (by simp [hr])]
  simp [hw]

theorem tickF_wrap_cont (sup : Bool) (cues : List String) (R : Nat) (s : SState)
    (hr : s.isRunning = true) (hw : (s.idx + 1) % cues.length = 0)
    (hstop : ¬ R ≤ s.count + 1) :
    tickF sup cues R s =
      { s with cueText := cues.getD (s.idx % cues.length) ""
               speaking := if sup then some (cues.getD (s.idx % cues.length) "") else s.speaking
               events := s.events ++ [SEv.cue (cues.getD (s.idx % cues.length) "")]
                 ++ (if sup then [SEv.cancel, SEv.speak (cues.getD (s.idx % cues.length) "")]
                     else [])
                 ++ [SEv.round (roundStr (s.count + 1 + 1) R)]
               idx := s.idx + 1, count := s.count + 1
               roundText := roundStr (s.count + 1 + 1) R } := by
  rw [tickF, if_neg (by simp [hr])]
  simp [hw, hstop]

theorem tickF_wrap_stop (sup : Bool) (cues : List String) (R : Nat) (s : SState)
    (hr : s.isRunning = true) (hw : (s.idx + 1) % cues.length = 0)
    (hstop : R ≤ s.count + 1) :
    tickF sup cues R s =
      stopF sup
        { s with cueText := cues.getD (s.idx % cues.length) ""
                 speaking := if sup then some (cues.getD (s.idx % cues.length) "") else s.speaking
                 events := s.events ++ [SEv.cue (cues.getD (s.idx % cues.length) "")]
                   ++ (if sup then [SEv.cancel, SEv.speak (cues.getD (s.idx % cues.length) "")]
                       else [])
                   ++ [SEv.round (roundStr (s.count + 1 + 1) R)]
                 idx := s.idx + 1, count := s.count + 1
                 roundText := roundStr (s.count + 1 + 1) R } := by
  rw [tickF, if_neg (by simp [hr])]
  simp [hw, hstop]

/-- Behavior of one executed tick on a consistent running state: the index
advances, the round counter tracks `idx / len`, exactly one announcement is
appended, and the caller stops precisely when the tick count reaches
`R * len`. -/
theorem tickF_inv (sup : Bool) (cues : List String) (R : Nat) (s : SState)
    (hr : s.isRunning = true) (hcount : s.count = s.idx / cues.length)
    (hlen : 0 < cues.length) :
    (tickF sup cues R s).idx = s.idx + 1
    ∧ (tickF sup cues R s).count = (s.idx + 1) / cues.length
    ∧ cueTexts (tickF sup cues R s).events
        = cueTexts s.events ++ [cues.getD (s.idx % cues.length) ""]
    ∧ (s.idx + 1 < R * cues.length →
        (tickF sup cues R s).isRunning = true ∧ (tickF sup cues R s).timer = s.timer)
    ∧ (s.idx + 1 = R * cues.length →
        (tickF sup cues R s).isRunning = false) := by
  by_cases hw : (s.idx + 1) % cues.length = 0
  · have hdvd : cues.length ∣ s.idx + 1 := Nat.dvd_of_mod_eq_zero hw
    have hdiv : (s.idx + 1) / cues.length = s.idx / cues.length + 1 := by
      rw [Nat.succ_div, if_pos hdvd]
    by_cases hstop : R ≤ s.count + 1
    · rw [tickF_wrap_stop sup cues R s hr hw hstop]
      refine ⟨rfl, ?_, ?_, ?_, fun _ => rfl⟩
      · show s.count + 1 = (s.idx + 1) / cues.length
        rw [hdiv, hcount]
      · simp only [stopF, List.append_assoc, cueTexts_append, cueTexts_cueOne,
          cueTexts_roundOne, cueTexts_stopPair, cueTexts_speakTail, cueTexts_cancelTail,
          List.append_nil]
      · intro h
        exfalso
        have hle : R ≤ (s.idx + 1) / cues.length := by
          rw [hdiv, ← hcount]; exact hstop
        have := (Nat.le_div_iff_mul_le hlen).mp hle
        omega
    · rw [tickF_wrap_cont sup cues R s hr hw hstop]
      refine ⟨rfl, ?_, ?_, fun _ => ⟨hr, rfl⟩, ?_⟩
      · show s.count + 1 = (s.idx + 1) / cues.length
        rw [hdiv, hcount]
      · simp only [List.append_assoc, cueTexts_append, cueTexts_cueOne, cueTexts_roundOne,
          cueTexts_speakTail, List.append_nil]
      · intro h
        exfalso
        apply hstop
        have : s.count + 1 = R := by
          rw [hcount, ← hdiv, h, Nat.mul_div_cancel _ hlen]
        omega
  · have hdvd : ¬ cues.length ∣ s.idx + 1 := fun hd => hw (Nat.mod_eq_zero_of_dvd hd)
    have hdiv : (s.idx + 1) / cues.length = s.idx / cues.length := by
      rw [Nat.succ_div, if_neg hdvd, Nat.add_zero]
    rw [tickF_nowrap sup cues R s hr hw]
    refine ⟨rfl, ?_, ?_, fun _ => ⟨hr, rfl⟩, ?_⟩
    · show s.count = (s.idx + 1) / cues.length
      rw [hdiv, hcount]
    · simp only [List.append_assoc, cueTexts_append, cueTexts_cueOne,
        cueTexts_speakTail, List.append_nil]
    · intro h
      exfalso
      apply hw
      rw [h]
      exact Nat.mul_mod_left R cues.length

theorem startF_initS (sup : Bool) (cues : List String) (R : Nat) :
    startF sup cues R initS = { tickF sup cues R (startS1 R) with timer := true } := by
  rw [startF, if_neg (by simp [initS])]
  rfl

theorem intervalStep_stopped (sup : Bool) (cues : List String) (R : Nat) (s : SState)
    (h : s.isRunning = false) : intervalStep sup cues R s = s := by
  rw [intervalStep]
  by_cases ht : s.timer = true
  · rw [if_pos ht, tickF, if_pos h]
  · rw [if_neg ht]

theorem runS_succ (sup : Bool) (cues : List String) (R n : Nat) :
    runS sup cues R (n+1) = intervalStep sup cues R (runS sup cues R n) := by
  simp only [runS, Function.iterate_succ_apply']

/-- The caller announces the head cue as part of `start` itself, before any
interval firing. -/
theorem startF_cueTexts (sup : Bool) (cues : List String) (R : Nat) (hc : cues ≠ []) :
    cueTexts (startF sup cues R initS).events = [cues.getD 0 ""] := by
  have hlen : 0 < cues.length := List.length_pos.mpr hc
  have h3 := (tickF_inv sup cues R (startS1 R) rfl (by simp [startS1]) hlen).2.2.1
  rw [startF_initS]
  have hproj : ({ tickF sup cues R (startS1 R) with timer := true } : SState).events
      = (tickF sup cues R (startS1 R)).events := rfl
  rw [hproj, h3]
  simp [startS1, cueTexts]

/-- Behavior of `start` from the idle state: one announcement, index 1, and
the caller is still running unless the budget is a single announcement. -/
theorem startF_inv (sup : Bool) (cues : List String) (R : Nat) (hc : cues ≠ []) :
    (startF sup cues R initS).idx = 1
    ∧ (startF sup cues R initS).count = 1 / cues.length
    ∧ (cueTexts (startF sup cues R initS).events).length = 1
    ∧ (1 < R * cues.length →
        (startF sup cues R initS).isRunning = true ∧ (startF sup cues R initS).timer = true)
    ∧ (1 = R * cues.length → (startF sup cues R initS).isRunning = false) := by
  have hlen : 0 < cues.length := List.length_pos.mpr hc
  obtain ⟨g1, g2, g3, g4, g5⟩ := tickF_inv sup cues R (startS1 R) rfl (by simp [startS1]) hlen
  have hidx : (startS1 R).idx = 0 := rfl
  rw [hidx] at g1 g2 g4 g5
  rw [startF_initS]
  refine ⟨?_, ?_, ?_, ?_, ?_⟩
  · show (tickF sup cues R (startS1 R)).idx = 1
    rw [g1]
  · show (tickF sup cues R (startS1 R)).count = 1 / cues.length
    rw [g2]
  · show (cueTexts (tickF sup cues R (startS1 R)).events).length = 1
    rw [g3]
    simp [startS1, cueTexts]
  · intro h
    have h' : 0 + 1 < R * cues.length := by omega
    exact ⟨(g4 h').1, rfl⟩
  · intro h
    have h' : 0 + 1 = R * cues.length := by omega
    exact g5 h'

/-- Run invariant of the cue caller: while the announcement budget
`R * len` is not yet reached the caller is running with `idx = n + 1`,
`count = (n+1) / len` and `n + 1` announcements made; once the budget is
reached it is stopped with exactly `R * len` announcements. -/
theorem runS_inv (sup : Bool) (cues : List String) (R : Nat)
    (hc : cues ≠ []) (hR : 1 ≤ R) : ∀ n,
    ((n + 1 < R * cues.length) →
      (runS sup cues R n).isRunning = true ∧ (runS sup cues R n).timer = true
        ∧ (runS sup cues R n).idx = n + 1
        ∧ (runS sup cues R n).count = (n + 1) / cues.length
        ∧ (cueTexts (runS sup cues R n).events).length = n + 1)
    ∧ ((R * cues.length ≤ n + 1) →
      (runS sup cues R n).isRunning = false
        ∧ (cueTexts (runS sup cues R n).events).length = R * cues.length) := by
  have hlen : 0 < cues.length := List.length_pos.mpr hc
  have hRL : 1 ≤ R * cues.length := Nat.mul_pos hR hlen
  intro n
  induction n with
  | zero =>
    obtain ⟨g1, g2, g3, g4, g5⟩ := startF_inv sup cues R hc
    have e0 : runS sup cues R 0 = startF sup cues R initS := rfl
    constructor
    · intro h1
      have h1' : 1 < R * cues.length := by omega
      refine ⟨(g4 h1').1, (g4 h1').2, ?_, ?_, ?_⟩
      · rw [e0, g1]
      · rw [e0, g2]
      · rw [e0, g3]
    · intro h1
      have h1' : 1 = R * cues.length := by omega
      refine ⟨g5 h1', ?_⟩
      rw [e0, g3, h1']
  | succ n ih =>
    rw [runS_succ]
    by_cases hn1 : n + 1 < R * cues.length
    · obtain ⟨p1, p2, p3, p4, p5⟩ := ih.1 hn1
      have hstep : intervalStep sup cues R (runS sup cues R n)
          = tickF sup cues R (runS sup cues R n) := by
        rw [intervalStep, if_pos p2]
      rw [hstep]
      obtain ⟨g1, g2, g3, g4, g5⟩ :=
        tickF_inv sup cues R (runS sup cues R n) p1 (by rw [p4, p3]) hlen
      rw [p3] at g1 g2 g4 g5
      constructor
      · intro h2
        refine ⟨(g4 h2).1, ?_, g1, g2, ?_⟩
        · rw [(g4 h2).2, p2]
        · rw [g3, List.length_append, p5]
          rfl
      · intro h2
        have heq : n + 1 + 1 = R * cues.length := by omega
        refine ⟨g5 heq, ?_⟩
        rw [g3, List.length_append, p5, ← heq]
        rfl
    · have hle : R * cues.length ≤ n + 1 := by omega
      obtain ⟨q1, q2⟩ := ih.2 hle
      rw [intervalStep_stopped sup cues R _ q1]
      constructor
      · intro h2; exfalso; omega
      · intro h2; exact ⟨q1, q2⟩

/-- Claim C3: the periodic cue caller announces cue 0 immediately on start,
before the first interval elapses, and a run allowed to reach its budget
produces exactly `R * len(L)` announcements in total, after which the caller
has auto-stopped. -/
theorem caller_announcement_count (sup : Bool) (cues : List String) (R n : Nat)
    (hc : cues ≠ []) (hR : 1 ≤ R) (hn : R * cues.length - 1 ≤ n) :
    cueTexts (startF sup cues R initS).events = [cues.getD 0 ""]
    ∧ (cueTexts (runS sup cues R n).events).length = R * cues.length
    ∧ (runS sup cues R n).isRunning = false := by
  have h2 : R * cues.length ≤ n + 1 := by omega
  obtain ⟨q1, q2⟩ := (runS_inv sup cues R hc hR n).2 h2
  exact ⟨startF_cueTexts sup cues R hc, q2, q1⟩

/-- Witness: the demo cue list with 2 rounds, observed after 5 interval
firings. -/
theorem caller_announcement_count_witness :
    cueTexts (startF true demoCues 2 initS).events = [demoCues.getD 0 ""]
    ∧ (cueTexts (runS true demoCues 2 5).events).length = 2 * demoCues.length
    ∧ (runS true demoCues 2 5).isRunning = false :=
  caller_announcement_count true demoCues 2 5 (by decide) (by decide) (by decide)

theorem toString_one : (toString 1 : String) = "1" := rfl

theorem ticksList_succ (c : Nat) :
    ticksList (c+1+1) = Ev.tick (c+1) :: ticksList (c+1) := by
  simp [ticksList, List.range_succ]

/-- Running the two timers of a phase for its remaining `e+1` seconds: the
countdown writes `e, ..., 1` and clears itself without ever writing 0, then
the advance timeout fires into `nextStep` at the incremented index. -/
theorem countdown_run (sup : Bool) (steps : List Step) (maxC : Nat) :
    ∀ (e : Nat) (s : BState), s.running = true → s.cd = some (e+1) →
      s.adv = some (e+1) → s.countText = toString (e+1) →
      (second sup steps maxC)^[e+1] s
        = nextStepF sup steps maxC (FUELB maxC)
            { s with cd := none, adv := none, i := s.i + 1, countText := "1"
                     events := s.events ++ ticksList (e+1) } := by
  intro e
  induction e with
  | zero =>
    intro s hrun hcd hadv hct
    obtain ⟨run, pb, ct, sc, sp, cy, ii, cd0, adv0, ev⟩ := s
    simp only at hrun hcd hadv hct
    subst hrun hcd hadv hct
    rw [Function.iterate_one, second, cdStep_clear rfl (le_refl 1),
        advStep_fire sup steps maxC rfl (le_refl 1)]
    congr 1
    simp [ticksList, toString_one]
  | succ e ihe =>
    intro s hrun hcd hadv hct
    obtain ⟨run, pb, ct, sc, sp, cy, ii, cd0, adv0, ev⟩ := s
    simp only at hrun hcd hadv hct
    subst hrun hcd hadv hct
    have hstep : second sup steps maxC
          ⟨true, pb, toString (e+1+1), sc, sp, cy, ii, some (e+1+1), some (e+1+1), ev⟩
        = ⟨true, pb, toString (e+1), sc, sp, cy, ii, some (e+1), some (e+1),
           ev ++ [Ev.tick (e+1)]⟩ := by
      rw [second, cdStep_tick rfl (by omega), advStep_wait sup steps maxC rfl (by omega)]
      simp
    rw [Function.iterate_succ_apply, hstep, ihe _ rfl rfl rfl rfl]
    congr 1
    simp [ticksList_succ]

/-- One complete phase, from its `nextStep` invocation through `secs`
elapsed seconds: the setup (display update, narration, chime, both timers)
followed by the countdown writes, ending in the next `nextStep` invocation
with the index advanced. -/
theorem phase_advance (sup : Bool) (steps : List Step) (maxC : Nat)
    (f : Nat) (s : BState) (st : Step)
    (hrun : s.running = true) (hget : steps.get? s.i = some st) (hd : 1 ≤ st.secs) :
    (second sup steps maxC)^[st.secs] (nextStepF sup steps maxC (f+1) s)
      = nextStepF sup steps maxC (FUELB maxC)
          { s with i := s.i + 1, cd := none, adv := none
                   phaseBig := st.label, scale := scaleOf st.action, countText := "1"
                   speaking := if sup then some st.label else s.speaking
                   events := s.events ++ phaseBlock sup st } := by
  obtain ⟨hi, hgets⟩ := List.get?_eq_some.mp hget
  rw [nextStepF, stepLoop_step, if_neg (by simp [hrun]), dif_pos hi, hgets, phaseSetup_eq]
  obtain ⟨e, he⟩ : ∃ e, st.secs = e + 1 := ⟨st.secs - 1, by omega⟩
  rw [he]
  rw [countdown_run sup steps maxC e
      { running := s.running, phaseBig := st.label, countText := toString (e+1)
        scale := scaleOf st.action
        speaking := if sup = true then some st.label else s.speaking
        cycle := s.cycle, i := s.i, cd := some (e+1), adv := some (e+1)
        events := s.events ++ phaseHead sup st } hrun rfl rfl rfl]
  congr 1
  simp [phaseBlock, phaseHead, List.append_assoc, he]

/-- One complete pass over a suffix of the pattern, phase by phase.  The
final display fields depend on the last phase and are existentially
quantified; the trace grows by exactly the concatenated phase blocks. -/
theorem cycle_advance (sup : Bool) (steps : List Step) (maxC : Nat) :
    ∀ (suf pre : List Step) (f : Nat) (s : BState),
      steps = pre ++ suf → (∀ st ∈ suf, 1 ≤ st.secs) →
      s.running = true → s.i = pre.length → suf ≠ [] →
      ∃ pb ct sc sp,
        (second sup steps maxC)^[sumSecs suf] (nextStepF sup steps maxC (f+1) s)
          = nextStepF sup steps maxC (FUELB maxC)
              { s with i := steps.length, cd := none, adv := none
                       phaseBig := pb, countText := ct, scale := sc, speaking := sp
                       events := s.events ++ (suf.map (phaseBlock sup)).flatten } := by
  intro suf
  induction suf with
  | nil => intro pre f s _ _ _ _ hne; exact absurd rfl hne
  | cons st suf' ih =>
    intro pre f s hsteps hdur hrun hi _
    have hget : steps.get? s.i = some st := by
      rw [hsteps, hi, List.get?_append_right (le_refl pre.length)]
      simp
    have hadv := phase_advance sup steps maxC f s st hrun hget (hdur st (by simp))
    rcases Decidable.em (suf' = []) with hemp | hne'
    · subst hemp
      refine ⟨st.label, "1", scaleOf st.action, (if sup then some st.label else s.speaking), ?_⟩
      have hsum : sumSecs [st] = st.secs := by simp [sumSecs]
      rw [hsum, hadv]
      have hil : s.i + 1 = steps.length := by
        rw [hsteps, hi]; simp
      congr 1
      simp [hil]
    · have hsum : sumSecs (st :: suf') = sumSecs suf' + st.secs := by
        simp [sumSecs, Nat.add_comm]
      rw [hsum, Function.iterate_add_apply, hadv]
      have hFB : FUELB maxC = (2 * maxC + 2) + 1 := rfl
      obtain ⟨pb, ct, sc, sp, hres⟩ := ih (pre ++ [st]) (2 * maxC + 2)
        { s with i := s.i + 1, cd := none, adv := none
                 phaseBig := st.label, scale := scaleOf st.action, countText := "1"
                 speaking := if sup then some st.label else s.speaking
                 events := s.events ++ phaseBlock sup st }
        (by rw [hsteps]; simp)
        (fun st' h' => hdur st' (by simp [h']))
        hrun
        (by simp [hi])
        hne'
      rw [hFB] at hres ⊢
      rw [hres]
      refine ⟨pb, ct, sc, sp, ?_⟩
      congr 1
      simp [List.append_assoc]

theorem runCycle_stop (sup : Bool) (steps : List Step) (maxC : Nat) (f : Nat) (s : BState)
    (hrun : s.running = true) (hc : maxC ≤ s.cycle) :
    runCycleF sup steps maxC (f+1) s = stopAllF sup s := by
  rw [runCycleF, stepLoop_cycle, if_neg (by simp [hrun]), if_pos hc]

/-- Rollover at the end of a cycle: `nextStep` at `i = len` increments the
cycle and re-enters `runCycle`. -/
theorem rollover (sup : Bool) (steps : List Step) (maxC : Nat) (s : BState)
    (hrun : s.running = true) (hi : s.i = steps.length) :
    nextStepF sup steps maxC (FUELB maxC) s
      = runCycleF sup steps maxC (2*maxC+2) { s with cycle := s.cycle + 1 } := by
  rw [FUELB_succ, nextStepF, stepLoop_step, if_neg (by simp [hrun]),
      dif_neg (by simp [hi])]
  rfl

/-- One complete cycle from `runCycle`, ending in the next `runCycle`
invocation with the cycle counter incremented. -/
theorem one_cycle (sup : Bool) (steps : List Step) (maxC : Nat) (f : Nat) (s : BState)
    (hrun : s.running = true) (hlt : ¬ maxC ≤ s.cycle) (hne : steps ≠ [])
    (hdur : ∀ st ∈ steps, 1 ≤ st.secs) :
    ∃ pb ct sc sp,
      (second sup steps maxC)^[sumSecs steps] (runCycleF sup steps maxC (f+2) s)
        = runCycleF sup steps maxC (2*maxC+2)
            { s with cycle := s.cycle + 1, i := steps.length, cd := none, adv := none
                     phaseBig := pb, countText := ct, scale := sc, speaking := sp
                     events := s.events ++ cycleBlock sup steps } := by
  have hred : runCycleF sup steps maxC (f+2) s
      = nextStepF sup steps maxC (f+1) { s with i := 0 } := by
    rw [show f + 2 = (f+1)+1 from rfl, runCycleF, stepLoop_cycle,
        if_neg (by simp [hrun]), if_neg hlt]
    rfl
  obtain ⟨pb, ct, sc, sp, h1⟩ := cycle_advance sup steps maxC steps [] f
    { s with i := 0 } (by simp) hdur hrun (by simp) hne
  refine ⟨pb, ct, sc, sp, ?_⟩
  rw [hred, h1]
  exact rollover sup steps maxC _ hrun rfl

/-- A natural-completion run of the remaining `k ≥ 1` cycles from
`runCycle`: `k` cycle blocks of events, then the stop teardown, and the
machine ends stopped with all timers cleared. -/
theorem full_run (sup : Bool) (steps : List Step) (maxC : Nat) :
    ∀ (k : Nat) (f : Nat) (s : BState),
      s.running = true → s.cycle + k = maxC → steps ≠ [] →
      (∀ st ∈ steps, 1 ≤ st.secs) → 1 ≤ k →
      ∃ sp,
        (second sup steps maxC)^[k * sumSecs steps] (runCycleF sup steps maxC (f+2) s)
          = { running := false, phaseBig := "Stopped", countText := "—", scale := 100
              speaking := sp, cycle := maxC, i := steps.length, cd := none, adv := none
              events := s.events ++ (List.replicate k (cycleBlock sup steps)).flatten
                        ++ ([Ev.stopped] ++ (if sup then [Ev.cancel] else [])) } := by
  intro k
  induction k with
  | zero => intro f s _ _ _ _ h1; omega
  | succ m ih =>
    intro f s hrun hcyc hne hdur _
    have hlt : ¬ maxC ≤ s.cycle := by omega
    obtain ⟨pb, ct, sc, sp, h1⟩ := one_cycle sup steps maxC f s hrun hlt hne hdur
    rcases Nat.eq_zero_or_pos m with hm | hm
    · subst hm
      have hexp : (0 + 1) * sumSecs steps = sumSecs steps := by omega
      refine ⟨if sup then none else sp, ?_⟩
      rw [hexp, h1, show (2*maxC+2) = (2*maxC+1)+1 from rfl,
          runCycle_stop sup steps maxC (2*maxC+1)
            { s with cycle := s.cycle + 1, i := steps.length, cd := none, adv := none
                     phaseBig := pb, countText := ct, scale := sc, speaking := sp
                     events := s.events ++ cycleBlock sup steps }
            hrun (by show maxC ≤ s.cycle + 1; omega)]
      simp [stopAllF, List.append_assoc]
      omega
    · obtain ⟨sp2, h2⟩ := ih (2*maxC)
        { s with cycle := s.cycle + 1, i := steps.length, cd := none, adv := none
                 phaseBig := pb, countText := ct, scale := sc, speaking := sp
                 events := s.events ++ cycleBlock sup steps }
        hrun (by show s.cycle + 1 + m = maxC; omega) hne hdur hm
      refine ⟨sp2, ?_⟩
      rw [show (m + 1) * sumSecs steps = m * sumSecs steps + sumSecs steps from by ring,
          Function.iterate_add_apply, h1, h2]
      simp [List.replicate_succ, List.append_assoc]

theorem phaseEvs_append (l1 l2 : List Ev) :
    phaseEvs (l1 ++ l2) = phaseEvs l1 ++ phaseEvs l2 := by
  simp [phaseEvs]

theorem phaseEvs_tick_map (l : List Nat) :
    phaseEvs (l.map fun k => Ev.tick (k+1)) = [] := by
  induction l with
  | nil => rfl
  | cons a t ih => simpa [phaseEvs] using ih

theorem phaseEvs_ticksList (d : Nat) : phaseEvs (ticksList d) = [] := by
  rw [ticksList]
  exact phaseEvs_tick_map _

theorem phaseEvs_phaseBlock (sup : Bool) (st : Step) :
    phaseEvs (phaseBlock sup st) = [Ev.phase st.label st.secs st.action] := by
  rw [phaseBlock, phaseEvs_append, phaseEvs_ticksList, List.append_nil]
  cases sup <;> simp [phaseHead, phaseEvs]

theorem phaseEvs_cycleBlock (sup : Bool) (steps : List Step) :
    phaseEvs (cycleBlock sup steps)
      = steps.map fun st => Ev.phase st.label st.secs st.action := by
  induction steps with
  | nil => rfl
  | cons st t ih =>
    rw [show cycleBlock sup (st :: t) = phaseBlock sup st ++ cycleBlock sup t from by
          simp [cycleBlock]]
    rw [phaseEvs_append, phaseEvs_phaseBlock, ih, List.map_cons]
    rfl

theorem phaseEvs_replicate (sup : Bool) (steps : List Step) (k : Nat) :
    phaseEvs ((List.replicate k (cycleBlock sup steps)).flatten)
      = (List.replicate k steps).flatten.map
          fun st => Ev.phase st.label st.secs st.action := by
  induction k with
  | zero => rfl
  | succ k ih =>
    simp [List.replicate_succ, phaseEvs_append, phaseEvs_cycleBlock, ih]

theorem phaseEvs_ifCancel (b : Bool) :
    phaseEvs (if b then [Ev.cancel] else []) = [] := by
  cases b <;> rfl

theorem phaseEvs_stoppedOne : phaseEvs [Ev.stopped] = [] := rfl

theorem phaseEvs_stopCons (b : Bool) :
    phaseEvs (Ev.stopped :: (if b then [Ev.cancel] else [])) = [] := by
  cases b <;> rfl

/-- Claim C1: a sequencer started on a valid pattern `P` (non-empty, all
durations ≥ 1) with cycle target `C ≥ 1` and left to natural completion
produces exactly `C * len(P)` phase-advance events — the pattern in order,
repeated `C` times, with no phase duplicated or skipped — and ends in the
stopped state. -/
theorem phase_sequencer_complete (sup : Bool) (steps : List Step) (C : Nat)
    (hs : steps ≠ []) (hd : ∀ st ∈ steps, 1 ≤ st.secs) (hC : 1 ≤ C) :
    phaseEvs (runB sup steps C (C * sumSecs steps)).events
      = (List.replicate C steps).flatten.map
          (fun st => Ev.phase st.label st.secs st.action)
    ∧ (phaseEvs (runB sup steps C (C * sumSecs steps)).events).length = C * steps.length
    ∧ (runB sup steps C (C * sumSecs steps)).running = false := by
  obtain ⟨sp, hfull⟩ := full_run sup steps C C (2*C+1)
    { initB with running := true, cycle := 0 }
    rfl (by simp) hs hd hC
  have hstart : startFlowF sup steps C initB
      = runCycleF sup steps C ((2*C+1)+2) { initB with running := true, cycle := 0 } := by
    rw [startFlowF, if_neg (by simp [initB])]
    rfl
  have hev : phaseEvs (runB sup steps C (C * sumSecs steps)).events
      = (List.replicate C steps).flatten.map
          (fun st => Ev.phase st.label st.secs st.action) := by
    simp only [runB]
    rw [hstart, hfull]
    simp [initB, phaseEvs_append, phaseEvs_replicate, phaseEvs_ifCancel,
      phaseEvs_stoppedOne, phaseEvs_stopCons]
  refine ⟨hev, ?_, ?_⟩
  · rw [hev]
    simp [List.length_flatten, List.map_replicate, List.sum_replicate, smul_eq_mul]
  · simp only [runB]
    rw [hstart, hfull]

/-- Witness: the Box pattern run to natural completion over 2 cycles. -/
theorem phase_sequencer_complete_witness :
    phaseEvs (runB true boxSteps 2 (2 * sumSecs boxSteps)).events
      = (List.replicate 2 boxSteps).flatten.map
          (fun st => Ev.phase st.label st.secs st.action)
    ∧ (phaseEvs (runB true boxSteps 2 (2 * sumSecs boxSteps)).events).length
        = 2 * boxSteps.length
    ∧ (runB true boxSteps 2 (2 * sumSecs boxSteps)).running = false :=
  phase_sequencer_complete true boxSteps 2 (by decide) (by decide) (by decide)

/-- Claim C10: every call of `save_log` appends exactly one row — with
exactly the columns time, module, duration_sec, notes, rating — to the
in-memory log, leaves all previously logged rows unchanged, and returns
normally regardless of whether the CSV persist succeeds or fails. -/
theorem save_log_appends_one_row (now : String) (persist : List LogRow → Except String Unit)
    (module : String) (duration_sec : Int) (notes : String) (rating : Option Int)
    (log_df : List LogRow) :
    save_log now persist module duration_sec notes rating log_df
      = log_df ++ [{ time := now, module := module, duration_sec := duration_sec
                     notes := notes, rating := rating }] := by
  simp only [save_log]
  cases persist (log_df ++ [{ time := now, module := module, duration_sec := duration_sec
                              notes := notes, rating := rating }]) <;> rfl

end DailyExercise
